import Mathlib

/-!
Verification of the karate-monitor log pipeline.

This file gives a shallow embedding, in Lean 4, of the parts of the Rust
sources relevant to the correlation, analysis, parsing and process-driver
claims, and proves (or refutes) each claim against that embedding.

Conventions of the embedding:
  * Rust `HashMap<String, V>` is modelled as `String → Option V` with
    insert-or-update semantics (hashing is irrelevant to the claims).
  * Rust `f64` is modelled by the inductive `F64` below: an exact rational
    for finite values, plus the two infinities and NaN.  `partial_cmp`
    becomes `F64.pcmp`, defined exactly on non-NaN pairs and undefined
    (`none`) when either side is NaN, as in Rust.
  * A Rust call that can panic is modelled as returning `Option`, with
    `none` for the panic.
  * `u16`/`u32` counters become `Nat`, `i64` becomes `Int` (no claim in
    scope depends on fixed-width overflow).
-/

namespace KarateMonitor

/-! ## String helpers (models of Rust `str` methods) -/

/-- Model of Rust `str::contains(pat)` for a (sub)string pattern,
    on character lists. -/
def listHasSub (pat : List Char) : List Char → Bool
  | [] => pat.isEmpty
  | c :: t => pat.isPrefixOf (c :: t) || listHasSub pat t

/-- Model of Rust `str::contains(pat)`: substring containment. -/
def strContains (s pat : String) : Bool :=
  listHasSub pat.toList s.toList

/-- Model of Rust `str::to_uppercase` (character-wise uppercase; the
    inputs in scope are ASCII). -/
def strToUpper (s : String) : String :=
  String.mk (s.toList.map Char.toUpper)

/-! ## log_parser.rs: ApiLogEntry, LogLevel, LogType -/

/-- Embedding of `ApiLogEntry` (log_parser.rs).  The two JSON-valued
    fields `request_body` / `response_body` and the `extra` flatten map are
    omitted: no claim in scope reads them.  `status : u16` becomes `Nat`,
    `rows_affected / office_id / user_id : i64` become `Int`. -/
structure ApiLogEntry where
  time : Option String := none
  level : String := ""
  msg : String := ""
  request_id : Option String := none
  uri : Option String := none
  method : Option String := none
  status : Option Nat := none
  latency_human : Option String := none
  sql : Option String := none
  elapsed : Option String := none
  rows_affected : Option Int := none
  err : Option String := none
  func : Option String := none
  office_id : Option Int := none
  user_id : Option Int := none
deriving DecidableEq, Repr

/-- Embedding of `LogLevel` (log_parser.rs). -/
inductive LogLevel where
  | Debug
  | Info
  | Warn
  | Error
deriving DecidableEq, Repr

/-- Embedding of `LogLevel::from_str` (log_parser.rs, lines 57-67):
    uppercases the input and matches the four level names, with
    `WARNING` accepted for `Warn` and anything unknown mapped to `Info`. -/
def LogLevel.from_str (s : String) : LogLevel :=
  let u := strToUpper s
  if u = "DEBUG" then LogLevel.Debug
  else if u = "INFO" then LogLevel.Info
  else if u = "WARN" ∨ u = "WARNING" then LogLevel.Warn
  else if u = "ERROR" then LogLevel.Error
  else LogLevel.Info

/-- Embedding of `LogType` (log_parser.rs). -/
inductive LogType where
  | ApiRequest
  | ApiSql
  | ApiError
  | ApiBodyDump
  | ApiGeneral
  | KarateScenarioStart
  | KarateScenarioEnd
  | KarateFailure
  | KarateInfo
  | KarateSummary
deriving DecidableEq, Repr

/-- Embedding of `ApiLogEntry::log_type` (log_parser.rs, lines 116-137).
    Note the level comparisons are against the exact string `"ERROR"`,
    not through `LogLevel::from_str`. -/
def ApiLogEntry.log_type (e : ApiLogEntry) : LogType :=
  if strContains e.msg "SQL" || e.sql.isSome then
    if e.level = "ERROR" || e.err.isSome then LogType.ApiError
    else LogType.ApiSql
  else if strContains e.msg "request / response body dump" then
    LogType.ApiBodyDump
  else if e.msg = "REQUEST" then
    LogType.ApiRequest
  else if e.level = "ERROR" then
    LogType.ApiError
  else
    LogType.ApiGeneral

/-- Embedding of `ApiLogEntry::is_request_summary` (log_parser.rs,
    lines 140-142). -/
def ApiLogEntry.is_request_summary (e : ApiLogEntry) : Bool :=
  e.msg = "REQUEST" && e.status.isSome

/-! ## log_parser.rs: extract_path_query (via the url crate) -/

/-- Splits a character list at the first occurrence of the (nonempty)
    separator, returning the parts before and after it. -/
def splitFirst (sep : List Char) : List Char → Option (List Char × List Char)
  | [] => none
  | c :: t =>
    if sep.isPrefixOf (c :: t) then some ([], (c :: t).drop sep.length)
    else (splitFirst sep t).map (fun p => (c :: p.1, p.2))

/-- Embedding of `extract_path_query` (log_parser.rs, lines 209-218),
    which calls `url::Url::parse` and rebuilds `path?query`.  The url
    crate is modelled for well-formed absolute URLs with an alphabetic
    scheme and a nonempty authority: the scheme is everything before the
    first `"://"`, the fragment (after `#`) is dropped, the path starts at
    the first `/` or `?` after the authority (empty path prints as `/`),
    and the query is everything after the first `?`.  Exotic inputs on
    which the url crate performs deeper normalisation are out of scope;
    every claim touches this function only through its result. -/
def extract_path_query (u : String) : Option String :=
  match splitFirst ("://".toList) u.toList with
  | none => none
  | some (scheme, rest) =>
    if scheme.isEmpty || !(scheme.all Char.isAlpha) then none
    else
      let rest := rest.takeWhile (fun c => c ≠ '#')
      let auth := rest.takeWhile (fun c => c ≠ '/' && c ≠ '?')
      if auth.isEmpty then none
      else
        let tail := rest.drop auth.length
        let path := tail.takeWhile (fun c => c ≠ '?')
        let query := tail.drop path.length
        let pathStr := if path.isEmpty then "/" else String.mk path
        match query with
        | [] => some pathStr
        | _ :: q => some (pathStr ++ "?" ++ String.mk q)

/-! ## correlation.rs: RequestCorrelator -/

/-- Embedding of `RequestCorrelator` (correlation.rs).  The two
    `HashMap<String, _>` fields are modelled as functions returning
    `Option`. -/
structure RequestCorrelator where
  request_logs : String → Option (List (String × ApiLogEntry))
  url_to_request_id : String → Option String
  seen_urls : List (String × String)
  last_request_id : Option String

/-- Embedding of `RequestCorrelator::new` (correlation.rs, lines 19-26). -/
def RequestCorrelator.new : RequestCorrelator where
  request_logs := fun _ => none
  url_to_request_id := fun _ => none
  seen_urls := []
  last_request_id := none

/-- Embedding of `RequestCorrelator::buffer_api_log` (correlation.rs,
    lines 29-48): entries without a `request_id` are ignored; otherwise
    the raw/parsed pair is appended to the id's bucket
    (`entry(..).or_default().push(..)`), `last_request_id` is updated, and
    if the entry is a terminal request summary carrying a `uri`, the
    `uri → request_id` mapping is registered and the pair recorded in
    `seen_urls`. -/
def RequestCorrelator.buffer_api_log (c : RequestCorrelator)
    (raw_json : String) (entry : ApiLogEntry) : RequestCorrelator :=
  match entry.request_id with
  | none => c
  | some request_id =>
    let bucket := (c.request_logs request_id).getD []
    let logs := fun k =>
      if k = request_id then some (bucket ++ [(raw_json, entry)])
      else c.request_logs k
    if entry.is_request_summary then
      match entry.uri with
      | some uri =>
        { request_logs := logs
          url_to_request_id := fun k =>
            if k = uri then some request_id else c.url_to_request_id k
          seen_urls := c.seen_urls ++ [(uri, request_id)]
          last_request_id := some request_id }
      | none =>
        { c with request_logs := logs, last_request_id := some request_id }
    else
      { c with request_logs := logs, last_request_id := some request_id }

/-- Embedding of `RequestCorrelator::get_failed_request_logs`
    (correlation.rs, lines 52-66): normalise the full URL to path+query,
    look the key up in `url_to_request_id`, and return that id's bucket. -/
def RequestCorrelator.get_failed_request_logs (c : RequestCorrelator)
    (full_url : String) : Option (String × List (String × ApiLogEntry)) :=
  match extract_path_query full_url with
  | none => none
  | some path_query =>
    match c.url_to_request_id path_query with
    | none => none
    | some request_id =>
      (c.request_logs request_id).map (fun logs => (request_id, logs))

/-- Embedding of `RequestCorrelator::get_last_request_logs`
    (correlation.rs, lines 93-102): the last `max_logs` entries of the
    most recent id's bucket (`skip (len - max_logs)`), or `none` when no
    id has been seen or its bucket is absent. -/
def RequestCorrelator.get_last_request_logs (c : RequestCorrelator)
    (max_logs : Nat) : Option (String × List (String × ApiLogEntry)) :=
  match c.last_request_id with
  | none => none
  | some request_id =>
    match c.request_logs request_id with
    | none => none
    | some logs => some (request_id, logs.drop (logs.length - max_logs))

/-- Embedding of `RequestCorrelator::clear` (correlation.rs,
    lines 105-110). -/
def RequestCorrelator.clear (_c : RequestCorrelator) : RequestCorrelator :=
  RequestCorrelator.new

/-- Folds `buffer_api_log` over a trace of raw/parsed pairs, in arrival
    order. -/
def RequestCorrelator.bufferAll (c : RequestCorrelator)
    (es : List (String × ApiLogEntry)) : RequestCorrelator :=
  es.foldl (fun acc p => acc.buffer_api_log p.1 p.2) c

/-- A record is terminal for URL key `u` when it carries an identifier,
    is a request summary (`msg = "REQUEST"` with a status) and its `uri`
    field is exactly `u`.  Only such records update `url_to_request_id u`. -/
def TerminalFor (e : ApiLogEntry) (u : String) : Prop :=
  e.request_id.isSome = true ∧ e.is_request_summary = true ∧ e.uri = some u

instance (e : ApiLogEntry) (u : String) : Decidable (TerminalFor e u) := by
  unfold TerminalFor; infer_instance

/-- Internal invariant of the correlator: whenever `last_request_id` is
    set, the corresponding bucket exists and is nonempty. -/
def CorrInv (c : RequestCorrelator) : Prop :=
  ∀ id, c.last_request_id = some id →
    ∃ l, c.request_logs id = some l ∧ l ≠ []

/-- Sample terminal request-summary record (for concrete evaluations). -/
def termEntry : ApiLogEntry :=
  { request_id := some "abc123", msg := "REQUEST",
    uri := some "/api/v1/test?id=1", status := some 200 }

/-- Sample non-terminal record carrying an identifier. -/
def infoEntry : ApiLogEntry :=
  { request_id := some "abc123", msg := "processing",
    uri := some "/api/v1/test?id=1" }

/-- Sample terminal-shaped record with no identifier. -/
def termEntryNoId : ApiLogEntry :=
  { msg := "REQUEST", uri := some "/api/v1/test?id=1", status := some 200 }

/-! ## analysis.rs: f64 model, parse_elapsed, SqlStats -/

/-- Model of Rust `f64` for the analysis claims: an exact rational for
    finite values, the two infinities, and NaN.  (Finite values are kept
    exact; claims in scope depend only on ordering and NaN-ness, not on
    binary rounding.) -/
inductive F64 where
  | nan
  | negInf
  | finite (q : ℚ)
  | inf
deriving DecidableEq, Repr

/-- Model of Rust `f64::partial_cmp`: undefined (`none`) when either side
    is NaN, otherwise the order with `-inf < finite < inf`. -/
def F64.pcmp : F64 → F64 → Option Ordering
  | .nan, _ => none
  | _, .nan => none
  | .negInf, .negInf => some Ordering.eq
  | .negInf, _ => some Ordering.lt
  | _, .negInf => some Ordering.gt
  | .inf, .inf => some Ordering.eq
  | .inf, _ => some Ordering.gt
  | _, .inf => some Ordering.lt
  | .finite a, .finite b => some (compare a b)

/-- Model of Rust `f64` addition, restricted to what the claims need:
    NaN absorbs, opposite infinities give NaN, an infinity absorbs finite
    values, finite addition is exact. -/
def F64.add : F64 → F64 → F64
  | .nan, _ => .nan
  | _, .nan => .nan
  | .inf, .negInf => .nan
  | .negInf, .inf => .nan
  | .inf, _ => .inf
  | _, .inf => .inf
  | .negInf, _ => .negInf
  | _, .negInf => .negInf
  | .finite a, .finite b => .finite (a + b)

/-- Order embedding of non-NaN `F64` values into a linear order
    (`nan` is mapped to `⊥` as junk; it is never compared through this). -/
def F64.toE : F64 → WithBot (WithTop ℚ)
  | .nan => ⊥
  | .negInf => ⊥
  | .finite q => ((q : WithTop ℚ) : WithBot (WithTop ℚ))
  | .inf => ((⊤ : WithTop ℚ) : WithBot (WithTop ℚ))

/-- Greater-or-equal on `F64` through `pcmp` (defined only off NaN). -/
def F64.fge (a b : F64) : Prop :=
  F64.pcmp a b = some Ordering.gt ∨ F64.pcmp a b = some Ordering.eq

/-- Digit-string to number (for the float-literal model). -/
def digitsToNat (l : List Char) : Nat :=
  List.foldl (fun a c => a * 10 + (c.toNat - 48)) 0 l

/-- Exponent/mantissa assembly for `parseF64`. -/
def parseExpPart (neg : Bool) (intPart fracPart rest : List Char) :
    Option F64 :=
  let mk : Int → F64 := fun ex =>
    let mant : ℚ := (digitsToNat (intPart ++ fracPart) : ℚ) /
      ((10 : ℚ) ^ fracPart.length)
    let v : ℚ := mant * (10 : ℚ) ^ ex
    .finite (if neg then -v else v)
  match rest with
  | [] => some (mk 0)
  | e :: t =>
    if e = 'e' ∨ e = 'E' then
      let st : Bool × List Char :=
        match t with
        | '+' :: u => (false, u)
        | '-' :: u => (true, u)
        | u => (false, u)
      let eDigits := st.2.takeWhile Char.isDigit
      if eDigits.isEmpty ∨ st.2.length ≠ eDigits.length then none
      else some (mk (if st.1 then -(digitsToNat eDigits : Int)
                     else (digitsToNat eDigits : Int)))
    else none

/-- Model of Rust `f64::from_str`: optional sign, the case-insensitive
    keywords `inf`/`infinity`/`nan`, or a decimal literal with optional
    fraction and exponent.  Finite literals are read exactly (the
    overflow of extreme literals to ±infinity is not modelled; no claim
    exercises it). -/
def parseF64 (s : String) : Option F64 :=
  let cs0 := s.toList
  let sg : Bool × List Char :=
    match cs0 with
    | '+' :: t => (false, t)
    | '-' :: t => (true, t)
    | t => (false, t)
  let neg := sg.1
  let cs := sg.2
  let low := cs.map Char.toLower
  if low = "inf".toList ∨ low = "infinity".toList then
    some (if neg then F64.negInf else F64.inf)
  else if low = "nan".toList then some F64.nan
  else
    let intPart := cs.takeWhile Char.isDigit
    let rest₁ := cs.drop intPart.length
    match rest₁ with
    | '.' :: rest₂ =>
      let fracPart := rest₂.takeWhile Char.isDigit
      let rest₃ := rest₂.drop fracPart.length
      if intPart.isEmpty && fracPart.isEmpty then none
      else parseExpPart neg intPart fracPart rest₃
    | _ =>
      if intPart.isEmpty then none
      else parseExpPart neg intPart [] rest₁

/-- Fuel-indexed worker for `stripSuffixAll` (each strip shortens the
    list, so `l.length` fuel always suffices). -/
def stripSuffixAllFuel (pat : List Char) : Nat → List Char → List Char
  | 0, l => l
  | n + 1, l =>
    if !pat.isEmpty && pat.isSuffixOf l then
      stripSuffixAllFuel pat n (l.take (l.length - pat.length))
    else l

/-- Repeatedly strips the (nonempty) suffix `pat`, as Rust
    `str::trim_end_matches`. -/
def stripSuffixAll (pat l : List Char) : List Char :=
  stripSuffixAllFuel pat l.length l

/-- Embedding of `parse_elapsed` (analysis.rs, lines 269-277): strip the
    repeated suffixes `"ms"` then `"s"`, parse as `f64`, default `0.0`. -/
def parse_elapsed (elapsed : Option String) : F64 :=
  match elapsed with
  | none => F64.finite 0
  | some e =>
    match parseF64 (String.mk
        (stripSuffixAll ("s".toList) (stripSuffixAll ("ms".toList) e.toList))) with
    | some v => v
    | none => F64.finite 0

/-- First whitespace-separated token uppercased, `"UNKNOWN"` when absent:
    models `sql.trim().split_whitespace().next().unwrap_or("UNKNOWN")
    .to_uppercase()` (analysis.rs, lines 43-48). -/
def queryTypeOf (sql : String) : String :=
  let tok := String.mk
    ((sql.toList.dropWhile Char.isWhitespace).takeWhile
      (fun c => !c.isWhitespace))
  if tok = "" then "UNKNOWN" else strToUpper tok

/-- Embedding of `SqlQuery` (analysis.rs). -/
structure SqlQuery where
  sql : String
  elapsed_ms : F64
  rows_affected : Int
  uri : Option String
deriving DecidableEq, Repr

/-- Embedding of `SqlStats` (analysis.rs).  `queries_by_type` is modelled
    as an association list (first-insertion order; the HashMap's bucket
    order is irrelevant to the claims). -/
structure SqlStats where
  total_queries : Nat
  queries_by_type : List (String × Nat)
  total_rows_affected : Int
  error_count : Nat
  total_elapsed_ms : F64
  slowest_queries : List SqlQuery
deriving DecidableEq, Repr

/-- Embedding of `SqlStats::new` (analysis.rs, lines 26-35). -/
def SqlStats.new : SqlStats :=
  { total_queries := 0, queries_by_type := [], total_rows_affected := 0,
    error_count := 0, total_elapsed_ms := F64.finite 0,
    slowest_queries := [] }

/-- Models `*queries_by_type.entry(k).or_insert(0) += 1` on the
    association list. -/
def bumpType (m : List (String × Nat)) (k : String) : List (String × Nat) :=
  match m with
  | [] => [(k, 1)]
  | (k2, v) :: t => if k2 = k then (k2, v + 1) :: t else (k2, v) :: bumpType t k

/-- The comparator closure passed to `sort_by` (analysis.rs, line 75):
    `b.elapsed_ms.partial_cmp(&a.elapsed_ms)` — descending by elapsed
    time, undefined on NaN. -/
def cmpSlow (a b : SqlQuery) : Option Ordering :=
  F64.pcmp b.elapsed_ms a.elapsed_ms

/-- Stable insertion step agreeing with Rust `Vec::sort_by` under the
    comparator `cmpSlow` on comparator-consistent (NaN-free) input:
    the element moves past `y` only when strictly slower elements must
    stay in front, so equal keys keep arrival order. -/
def insertSlow (x : SqlQuery) : List SqlQuery → List SqlQuery
  | [] => [x]
  | y :: ys =>
    if cmpSlow x y = some Ordering.gt then y :: insertSlow x ys
    else x :: y :: ys

/-- Stable sort modelling the result of `Vec::sort_by` with `cmpSlow`
    (any stable sort under the same total preorder yields this list). -/
def sortSlow : List SqlQuery → List SqlQuery
  | [] => []
  | x :: xs => insertSlow x (sortSlow xs)

/-- Panic condition of the `sort_by` call (analysis.rs, lines 74-75): a
    slice of length ≥ 2 containing a NaN elapsed time makes the
    comparator's `unwrap` panic (every element of a short slice is
    compared against a neighbour; a 0/1-element slice is never
    compared). -/
def sortPanics (l : List SqlQuery) : Bool :=
  decide (2 ≤ l.length) && l.any (fun q => q.elapsed_ms = F64.nan)

/-- Embedding of `SqlStats::track_query` (analysis.rs, lines 38-78).
    `none` models the panic of the comparator unwrap inside `sort_by`. -/
def SqlStats.track_query (s : SqlStats) (entry : ApiLogEntry) :
    Option SqlStats :=
  match entry.sql with
  | none => some s
  | some sql =>
    let elapsed := parse_elapsed entry.elapsed
    let q : SqlQuery :=
      { sql := sql, elapsed_ms := elapsed,
        rows_affected := entry.rows_affected.getD 0, uri := entry.uri }
    let pushed := s.slowest_queries ++ [q]
    if sortPanics pushed then none
    else some
      { total_queries := s.total_queries + 1
        queries_by_type := bumpType s.queries_by_type (queryTypeOf sql)
        total_rows_affected := s.total_rows_affected +
          entry.rows_affected.getD 0
        error_count :=
          if entry.err.isSome || entry.level = "ERROR" then s.error_count + 1
          else s.error_count
        total_elapsed_ms := F64.add s.total_elapsed_ms elapsed
        slowest_queries := (sortSlow pushed).take 5 }

/-- Folds `track_query` over a list of entries, propagating the panic. -/
def SqlStats.trackAll (s : SqlStats) : List ApiLogEntry → Option SqlStats
  | [] => some s
  | e :: t =>
    match s.track_query e with
    | none => none
    | some s2 => s2.trackAll t

/-- The snapshot a given entry contributes to the slowest-query set, if
    its SQL field is present (mirrors the `SqlQuery` built in
    `track_query`). -/
def snapshots (es : List ApiLogEntry) : List SqlQuery :=
  es.filterMap (fun e => e.sql.map (fun sql =>
    { sql := sql, elapsed_ms := parse_elapsed e.elapsed,
      rows_affected := e.rows_affected.getD 0, uri := e.uri }))

/-- Sort key of a snapshot: its elapsed time, embedded in the reference
    linear order. -/
def keyOf (q : SqlQuery) : WithBot (WithTop ℚ) := q.elapsed_ms.toE

/-- Reference stable descending insertion (by `keyOf`): an element moves
    past `y` only when `y` is strictly greater, so equal keys keep
    arrival order. -/
def insertKey (x : SqlQuery) : List SqlQuery → List SqlQuery
  | [] => [x]
  | y :: ys =>
    if keyOf x < keyOf y then y :: insertKey x ys
    else x :: y :: ys

/-- Reference stable descending insertion sort (by `keyOf`). -/
def sortKey : List SqlQuery → List SqlQuery
  | [] => []
  | x :: xs => insertKey x (sortKey xs)

/-- Late insertion of `x` into a descending list: `x` is placed after
    every element with a greater-or-equal key (as a stable sort places a
    newly appended element). -/
def insLate (x : SqlQuery) : List SqlQuery → List SqlQuery
  | [] => [x]
  | y :: ys =>
    if keyOf y < keyOf x then x :: y :: ys
    else y :: insLate x ys

/-- No snapshot in the list has a NaN elapsed time. -/
def NoNanL (l : List SqlQuery) : Prop :=
  ∀ q ∈ l, q.elapsed_ms ≠ F64.nan

/-- The list is sorted descending by elapsed time (via the key
    embedding). -/
def DescSorted (l : List SqlQuery) : Prop :=
  List.Pairwise (fun a b => keyOf b ≤ keyOf a) l

/-- Sample SQL log entries (for concrete evaluations). -/
def sqlEntryA : ApiLogEntry :=
  { msg := "SQL query", sql := some "SELECT a", elapsed := some "3ms" }

/-- Sample SQL log entry, 1ms. -/
def sqlEntryB : ApiLogEntry :=
  { sql := some "SELECT b", elapsed := some "1ms" }

/-- Sample SQL log entry, 2ms. -/
def sqlEntryC : ApiLogEntry :=
  { sql := some "update t set x", elapsed := some "2ms" }

/-- Sample SQL log entry whose elapsed string parses to NaN. -/
def sqlEntryNaN : ApiLogEntry :=
  { sql := some "SELECT n", elapsed := some "NaN" }

/-- The statistics produced by tracking the three sample SQL entries
    (for the concrete evaluation of the slowest-query claim). -/
def demoStats : SqlStats :=
  { total_queries := 3
    queries_by_type := [("SELECT", 2), ("UPDATE", 1)]
    total_rows_affected := 0
    error_count := 0
    total_elapsed_ms := F64.finite 6
    slowest_queries :=
      [{ sql := "SELECT a", elapsed_ms := F64.finite 3,
         rows_affected := 0, uri := none },
       { sql := "update t set x", elapsed_ms := F64.finite 2,
         rows_affected := 0, uri := none },
       { sql := "SELECT b", elapsed_ms := F64.finite 1,
         rows_affected := 0, uri := none }] }

/-! ## Spec-side category cascade (for the C3 refinement) -/

/-- The spec's category-derivation cascade, as amended: first-match-wins
    with "severity is error-level" read as the exact string `"ERROR"`
    (case-sensitive), matching the code's comparisons. -/
def logCategorySpec (e : ApiLogEntry) : LogType :=
  if (strContains e.msg "SQL" || e.sql.isSome)
      && (e.level = "ERROR" || e.err.isSome) then LogType.ApiError
  else if strContains e.msg "SQL" || e.sql.isSome then LogType.ApiSql
  else if strContains e.msg "request / response body dump" then
    LogType.ApiBodyDump
  else if e.msg = "REQUEST" then LogType.ApiRequest
  else if e.level = "ERROR" then LogType.ApiError
  else LogType.ApiGeneral

/-- A record whose level is lowercase `"error"` with no SQL and no error
    field (for the C3 counterexample). -/
def errLowerEntry : ApiLogEntry := { level := "error", msg := "boom" }

/-! ## process.rs: health-check / run control flow (C6) -/

/-- Observable outcome of `ProcessManager::run` relevant to the
    health-check claim. -/
structure RunOutcome where
  probeAttempts : Nat
  apiKilled : Bool
  karateSpawned : Bool
  exitCode : Int
deriving DecidableEq, Repr

/-- Worker for `wait_for_api`: probes from index `i` with `rem` attempts
    remaining; returns success and the number of probes performed. -/
def waitForApiFrom (probe : Nat → Bool) : Nat → Nat → Bool × Nat
  | _, 0 => (false, 0)
  | i, rem + 1 =>
    if probe i then (true, 1)
    else
      let r := waitForApiFrom probe (i + 1) rem
      (r.1, r.2 + 1)

/-- Embedding of `ProcessManager::wait_for_api` (process.rs,
    lines 168-188): the loop `for i in 1..=timeout` probes once per
    iteration, returning `true` on the first successful probe; `probe i`
    is the result of the i-th health check.  The sleep interval does not
    affect the observable outcome. -/
def wait_for_api (timeout : Nat) (probe : Nat → Bool) : Bool × Nat :=
  waitForApiFrom probe 1 timeout

/-- Embedding of the health-check-relevant control flow of
    `ProcessManager::run` (process.rs, lines 63-155): if `wait_for_api`
    fails, the API process is killed, the Karate runner is never spawned,
    and the function returns `Ok(1)`; otherwise the runner is spawned and
    its exit code returned (the API process is killed afterwards in both
    paths). -/
def runModel (timeout : Nat) (probe : Nat → Bool) (karateExit : Int) :
    RunOutcome :=
  let w := wait_for_api timeout probe
  if w.1 then
    { probeAttempts := w.2, apiKilled := true, karateSpawned := true,
      exitCode := karateExit }
  else
    { probeAttempts := w.2, apiKilled := true, karateSpawned := false,
      exitCode := 1 }

/-! ## log_parser.rs: extract_failure_url (C7) -/

/-- ASCII whitespace class of the regex `\s` (the claims' inputs are
    ASCII). -/
def isWs (c : Char) : Bool :=
  c = ' ' || c = '\t' || c = '\n' || c = '\r' ||
  c = Char.ofNat 11 || c = Char.ofNat 12

/-- Consumes the literal prefix `pat`, returning the rest. -/
def dropPrefixQ (pat : List Char) (l : List Char) : Option (List Char) :=
  match pat, l with
  | [], rest => some rest
  | _ :: _, [] => none
  | p :: ps, c :: cs => if c = p then dropPrefixQ ps cs else none

/-- Consumes the optional `s` of `https?` (deterministic: the following
    literal starts with `:`). -/
def schemeS : List Char → List Char × List Char
  | c :: r4 => if c = 's' then (['s'], r4) else ([], c :: r4)
  | [] => ([], [])

/-- Attempts to match `url:\s*(https?://CLS+)` anchored at the start of
    `l`, for a one-character class `cls`; returns the first capture
    group.  (`\s*` is greedy and followed by `h`, and `s?` by `:`, so
    the regex backtracking is deterministic here.) -/
def urlCaptureAt (cls : Char → Bool) (l : List Char) : Option (List Char) :=
  (dropPrefixQ ("url:".toList) l).bind (fun r1 =>
    (dropPrefixQ ("http".toList) (r1.dropWhile isWs)).bind (fun r3 =>
      (dropPrefixQ ("://".toList) (schemeS r3).2).bind (fun r5 =>
        let body := r5.takeWhile cls
        if body.isEmpty then none
        else some ("http".toList ++ (schemeS r3).1 ++ "://".toList ++ body))))

/-- Leftmost match: try the anchored pattern at every position, left to
    right (the regex crate's leftmost-first semantics). -/
def scanCapture (cls : Char → Bool) : List Char → Option (List Char)
  | [] => none
  | c :: t =>
    match urlCaptureAt cls (c :: t) with
    | some cap => some cap
    | none => scanCapture cls t

/-- Embedding of `extract_failure_url` (log_parser.rs, lines 201-205):
    first capture of `url:\s*(https?://[^\s,]+)` — the captured run may
    contain neither whitespace nor commas. -/
def extract_failure_url (line : String) : Option String :=
  (scanCapture (fun c => !isWs c && !(c = ',')) line.toList).map
    (fun l => String.mk l)

/-- Modelled from the spec: the extraction pattern as the spec writes it,
    `url:\s*(https?://\S+)` — its capture class `\S` admits commas,
    unlike the code's `[^\s,]`. -/
def extract_failure_url_specPattern (line : String) : Option String :=
  (scanCapture (fun c => !isWs c) line.toList).map (fun l => String.mk l)

/-- The failure line from the claim (for concrete evaluation). -/
def karateFailureLine : String :=
  "status code was: 200, expected: 400, ... url: http://host/api/v1/x?id=1, response:"

/-! ## process.rs: batch-log grouping (C5) -/

/-- The batch marker character (the package emoji). -/
def batchMarker : Char := Char.ofNat 128230

/-- A runner output line enters the batch aggregator iff it contains the
    batch marker (process.rs, line 247). -/
def isBatchLine (line : String) : Bool :=
  strContains line (String.mk [batchMarker])

/-- The opening-brace character. -/
def braceChar : Char := Char.ofNat 123

/-- Ingests one batch line (process.rs, lines 248-260): if the line
    contains a brace, the suffix from the first brace is JSON-parsed;
    on success the stored content is that suffix with its parsed entry,
    otherwise the raw line with no entry.  The JSON parser (serde) is a
    parameter: the claims hold for every parse function. -/
def ingestBatch (parse : String → Option ApiLogEntry) (line : String) :
    String × Option ApiLogEntry :=
  if line.toList.any (fun c => c = braceChar) then
    let json := String.mk (line.toList.dropWhile (fun c => !(c = braceChar)))
    match parse json with
    | some e => (json, some e)
    | none => (line, none)
  else (line, none)

/-- The label of an emitted group (process.rs, lines 266-269): the first
    `request_id` found among the group's parsed records, or the fixed
    placeholder. -/
def groupLabel (buf : List (String × Option ApiLogEntry)) : String :=
  match buf.filterMap (fun p => p.2.bind (fun e => e.request_id)) with
  | [] => "Batch Job"
  | id :: _ => id

/-- An emitted batch group. -/
structure BatchGroup where
  label : String
  items : List (String × Option ApiLogEntry)
deriving DecidableEq, Repr

/-- One line of the Karate-stdout loop, restricted to the batch
    aggregator (process.rs, lines 245-282): batch lines are buffered and
    short-circuit the iteration (`continue`); a non-batch line first
    flushes a nonempty buffer as one group, then goes through the normal
    pipeline (collected in the third component). -/
def runBatchStep (parse : String → Option ApiLogEntry)
    (st : List (String × Option ApiLogEntry) × List BatchGroup × List String)
    (line : String) :
    List (String × Option ApiLogEntry) × List BatchGroup × List String :=
  if isBatchLine line then
    (st.1 ++ [ingestBatch parse line], st.2.1, st.2.2)
  else if st.1.isEmpty then
    (st.1, st.2.1, st.2.2 ++ [line])
  else
    ([], st.2.1 ++ [⟨groupLabel st.1, st.1⟩], st.2.2 ++ [line])

/-- The whole stdout loop followed by the end-of-stream flush
    (process.rs, lines 371-386): remaining buffered batch lines are
    emitted as one final group. -/
def runBatchPipeline (parse : String → Option ApiLogEntry)
    (lines : List String) : List BatchGroup × List String :=
  let st := lines.foldl (runBatchStep parse) ([], [], [])
  match h : st.1 with
  | [] => (st.2.1, st.2.2)
  | _ :: _ => (st.2.1 ++ [⟨groupLabel st.1, st.1⟩], st.2.2)

/-- Sample JSON-ish payload starting at a brace. -/
def demoJson : String := String.mk [braceChar, 'j']

/-- Sample parse function standing in for serde_json. -/
def demoParse : String → Option ApiLogEntry :=
  fun s => if s = demoJson then some infoEntry else none

/-- Batch-marked line carrying the JSON payload. -/
def batchLine1 : String := String.mk [batchMarker, ' '] ++ demoJson

/-- Batch-marked line with no JSON. -/
def batchLine2 : String := String.mk [batchMarker] ++ " plain"

/-- Non-batch line that flushes the group. -/
def flushLine : String := "scenarios: 1"

/-! ## Correlator lemmas -/

theorem bufferAll_nil (c : RequestCorrelator) :
    c.bufferAll [] = c := rfl

theorem bufferAll_cons (c : RequestCorrelator) (p : String × ApiLogEntry)
    (es : List (String × ApiLogEntry)) :
    c.bufferAll (p :: es) = (c.buffer_api_log p.1 p.2).bufferAll es := rfl

theorem bufferAll_append (c : RequestCorrelator)
    (l₁ l₂ : List (String × ApiLogEntry)) :
    c.bufferAll (l₁ ++ l₂) = (c.bufferAll l₁).bufferAll l₂ :=
  List.foldl_append _ _ _ _

theorem buffer_some_fields (c : RequestCorrelator) (r : String)
    (e : ApiLogEntry) (i : String) (h : e.request_id = some i) :
    (c.buffer_api_log r e).request_logs =
      (fun k => if k = i then some ((c.request_logs i).getD [] ++ [(r, e)])
                else c.request_logs k) ∧
    (c.buffer_api_log r e).last_request_id = some i := by
  simp only [RequestCorrelator.buffer_api_log, h]
  split
  · split <;> exact ⟨rfl, rfl⟩
  · exact ⟨rfl, rfl⟩

theorem buffer_none_frame (c : RequestCorrelator) (r : String)
    (e : ApiLogEntry) (h : e.request_id = none) :
    c.buffer_api_log r e = c := by
  simp only [RequestCorrelator.buffer_api_log, h]

theorem buffer_url_terminal (c : RequestCorrelator) (r : String)
    (e : ApiLogEntry) (i u : String) (h1 : e.request_id = some i)
    (h2 : e.is_request_summary = true) (h3 : e.uri = some u) :
    (c.buffer_api_log r e).url_to_request_id u = some i := by
  simp only [RequestCorrelator.buffer_api_log, h1, h2, h3, if_true]

theorem buffer_url_unchanged (c : RequestCorrelator) (r : String)
    (e : ApiLogEntry) (u : String) (h : ¬ TerminalFor e u) :
    (c.buffer_api_log r e).url_to_request_id u = c.url_to_request_id u := by
  unfold TerminalFor at h
  cases hid : e.request_id with
  | none => simp only [RequestCorrelator.buffer_api_log, hid]
  | some i =>
    cases hsum : e.is_request_summary with
    | false => simp only [RequestCorrelator.buffer_api_log, hid, hsum,
        Bool.false_eq_true, if_false]
    | true =>
      cases huri : e.uri with
      | none => simp only [RequestCorrelator.buffer_api_log, hid, hsum, huri,
          if_true]
      | some u2 =>
        have hne : u ≠ u2 := by
          intro hc
          exact h ⟨by simp [hid], hsum, by simp [huri, hc]⟩
        simp only [RequestCorrelator.buffer_api_log, hid, hsum, huri, if_true]
        simp [hne]

theorem bufferAll_url_unchanged (es : List (String × ApiLogEntry))
    (u : String) (h : ∀ p ∈ es, ¬ TerminalFor p.2 u) (c : RequestCorrelator) :
    (c.bufferAll es).url_to_request_id u = c.url_to_request_id u := by
  induction es generalizing c with
  | nil => rfl
  | cons p t ih =>
    rw [bufferAll_cons, ih (fun q hq => h q (List.mem_cons_of_mem p hq)),
      buffer_url_unchanged c p.1 p.2 u (h p (List.mem_cons_self p t))]

theorem buffer_logs_isSome (c : RequestCorrelator) (r : String)
    (e : ApiLogEntry) (i : String)
    (h : (c.request_logs i).isSome = true) :
    ((c.buffer_api_log r e).request_logs i).isSome = true := by
  cases hid : e.request_id with
  | none => rw [buffer_none_frame c r e hid]; exact h
  | some j =>
    rw [(buffer_some_fields c r e j hid).1]
    by_cases hij : i = j <;> simp [hij, h]

theorem buffer_logs_mem (c : RequestCorrelator) (r : String)
    (e : ApiLogEntry) (i : String) (x : String × ApiLogEntry)
    (h : x ∈ (c.request_logs i).getD []) :
    x ∈ ((c.buffer_api_log r e).request_logs i).getD [] := by
  cases hid : e.request_id with
  | none => rw [buffer_none_frame c r e hid]; exact h
  | some j =>
    rw [(buffer_some_fields c r e j hid).1]
    by_cases hij : i = j
    · subst hij; simp only [if_pos rfl, Option.getD_some]
      exact List.mem_append_left _ h
    · simp only [if_neg hij]; exact h

theorem bufferAll_logs_isSome (es : List (String × ApiLogEntry))
    (i : String) (c : RequestCorrelator)
    (h : (c.request_logs i).isSome = true) :
    ((c.bufferAll es).request_logs i).isSome = true := by
  induction es generalizing c with
  | nil => exact h
  | cons p t ih =>
    rw [bufferAll_cons]
    exact ih _ (buffer_logs_isSome c p.1 p.2 i h)

theorem bufferAll_logs_mem (es : List (String × ApiLogEntry))
    (i : String) (x : String × ApiLogEntry) (c : RequestCorrelator)
    (h : x ∈ (c.request_logs i).getD []) :
    x ∈ ((c.bufferAll es).request_logs i).getD [] := by
  induction es generalizing c with
  | nil => exact h
  | cons p t ih =>
    rw [bufferAll_cons]
    exact ih _ (buffer_logs_mem c p.1 p.2 i x h)

theorem bufferAll_uniform_id (i : String) (es : List (String × ApiLogEntry))
    (h : ∀ p ∈ es, p.2.request_id = some i) (c : RequestCorrelator)
    (l : List (String × ApiLogEntry)) (hl : c.request_logs i = some l)
    (hlast : c.last_request_id = some i) :
    (c.bufferAll es).request_logs i = some (l ++ es) ∧
    (c.bufferAll es).last_request_id = some i := by
  induction es generalizing c l with
  | nil => simpa using ⟨hl, hlast⟩
  | cons p t ih =>
    obtain ⟨r, e⟩ := p
    have hp : e.request_id = some i := h (r, e) (List.mem_cons_self _ t)
    have hf := buffer_some_fields c r e i hp
    rw [bufferAll_cons]
    have hl2 : (c.buffer_api_log r e).request_logs i = some (l ++ [(r, e)]) := by
      rw [hf.1]; simp [hl]
    have := ih (fun q hq => h q (List.mem_cons_of_mem _ hq))
      (c.buffer_api_log r e) (l ++ [(r, e)]) hl2 hf.2
    simpa using this

theorem bufferAll_all_none (es : List (String × ApiLogEntry))
    (h : ∀ p ∈ es, p.2.request_id = none) (c : RequestCorrelator) :
    c.bufferAll es = c := by
  induction es generalizing c with
  | nil => rfl
  | cons p t ih =>
    rw [bufferAll_cons, buffer_none_frame c p.1 p.2 (h p (List.mem_cons_self p t))]
    exact ih (fun q hq => h q (List.mem_cons_of_mem p hq)) c

theorem corrInv_new : CorrInv RequestCorrelator.new := by
  intro id hid
  exact absurd hid (by simp [RequestCorrelator.new])

theorem corrInv_buffer (c : RequestCorrelator) (r : String) (e : ApiLogEntry)
    (h : CorrInv c) : CorrInv (c.buffer_api_log r e) := by
  cases hid : e.request_id with
  | none => rw [buffer_none_frame c r e hid]; exact h
  | some i =>
    have hf := buffer_some_fields c r e i hid
    intro id hlast
    rw [hf.2] at hlast
    obtain rfl : i = id := by injection hlast
    refine ⟨(c.request_logs i).getD [] ++ [(r, e)], ?_, by simp⟩
    rw [hf.1]; simp

theorem corrInv_bufferAll (es : List (String × ApiLogEntry))
    (c : RequestCorrelator) (h : CorrInv c) : CorrInv (c.bufferAll es) := by
  induction es generalizing c with
  | nil => exact h
  | cons p t ih =>
    rw [bufferAll_cons]
    exact ih _ (corrInv_buffer c p.1 p.2 h)

theorem buffer_last_isSome (c : RequestCorrelator) (r : String)
    (e : ApiLogEntry) (h : c.last_request_id.isSome = true) :
    ((c.buffer_api_log r e).last_request_id).isSome = true := by
  cases hid : e.request_id with
  | none => rw [buffer_none_frame c r e hid]; exact h
  | some i => rw [(buffer_some_fields c r e i hid).2]; rfl

theorem bufferAll_last_isSome (es : List (String × ApiLogEntry))
    (c : RequestCorrelator) (h : c.last_request_id.isSome = true) :
    ((c.bufferAll es).last_request_id).isSome = true := by
  induction es generalizing c with
  | nil => exact h
  | cons p t ih =>
    rw [bufferAll_cons]
    exact ih _ (buffer_last_isSome c p.1 p.2 h)

theorem bufferAll_mem_id_last_isSome (es : List (String × ApiLogEntry))
    (c : RequestCorrelator)
    (h : ∃ p ∈ es, p.2.request_id.isSome = true) :
    ((c.bufferAll es).last_request_id).isSome = true := by
  induction es generalizing c with
  | nil => obtain ⟨p, hp, _⟩ := h; exact absurd hp (List.not_mem_nil p)
  | cons q t ih =>
    rw [bufferAll_cons]
    by_cases hq : q.2.request_id.isSome = true
    · obtain ⟨i, hi⟩ := Option.isSome_iff_exists.mp hq
      exact bufferAll_last_isSome t _
        (by rw [(buffer_some_fields c q.1 q.2 i hi).2]; rfl)
    · obtain ⟨p, hp, hps⟩ := h
      rcases List.mem_cons.mp hp with rfl | hpt
      · exact absurd hps hq
      · exact ih _ ⟨p, hpt, hps⟩

/-! ## Claim theorems: correlator (C1, C4, C8, C9) -/

/-- C1: an identifier becomes discoverable by URL only after its terminal
    "request complete" record has been buffered.  Part 1: once a terminal
    record with identifier `i` and URI key `u` is recorded (and no later
    terminal record reuses the same key), `get_failed_request_logs`
    succeeds and yields `i`'s bucket — which contains that record — for
    every full URL normalising to `u`.  Part 2: for a URL key under which
    only non-terminal records were recorded, the lookup returns `none`
    (a miss, not an error). -/
theorem c1_url_discoverability :
    (∀ (es₁ es₂ : List (String × ApiLogEntry)) (raw : String)
        (e : ApiLogEntry) (i u full_url : String),
      e.request_id = some i →
      e.is_request_summary = true →
      e.uri = some u →
      (∀ p ∈ es₂, ¬ TerminalFor p.2 u) →
      extract_path_query full_url = some u →
      ∃ logs,
        (RequestCorrelator.new.bufferAll (es₁ ++ (raw, e) :: es₂)).request_logs i
            = some logs ∧
        (RequestCorrelator.new.bufferAll (es₁ ++ (raw, e) :: es₂)).get_failed_request_logs
            full_url = some (i, logs) ∧
        (raw, e) ∈ logs) ∧
    (∀ (es : List (String × ApiLogEntry)) (u full_url : String),
      extract_path_query full_url = some u →
      (∀ p ∈ es, ¬ TerminalFor p.2 u) →
      (RequestCorrelator.new.bufferAll es).get_failed_request_logs full_url
        = none) := by
  constructor
  · intro es₁ es₂ raw e i u full_url hid hsum huri hno hex
    rw [bufferAll_append]
    rw [bufferAll_cons]
    set c₁ := RequestCorrelator.new.bufferAll es₁ with hc₁
    set c₂ := c₁.buffer_api_log raw e with hc₂
    have hf := buffer_some_fields c₁ raw e i hid
    have hlogs2 : c₂.request_logs i
        = some ((c₁.request_logs i).getD [] ++ [(raw, e)]) := by
      rw [hc₂, hf.1]; simp
    have hsome : ((c₂.bufferAll es₂).request_logs i).isSome = true :=
      bufferAll_logs_isSome es₂ i c₂ (by rw [hlogs2]; rfl)
    obtain ⟨logs, hlogs⟩ := Option.isSome_iff_exists.mp hsome
    have hmem : (raw, e) ∈ logs := by
      have := bufferAll_logs_mem es₂ i (raw, e) c₂
        (by rw [hlogs2]; simp)
      rwa [hlogs, Option.getD_some] at this
    have hurl : (c₂.bufferAll es₂).url_to_request_id u = some i := by
      rw [bufferAll_url_unchanged es₂ u hno c₂, hc₂]
      exact buffer_url_terminal c₁ raw e i u hid hsum huri
    refine ⟨logs, hlogs, ?_, hmem⟩
    simp only [RequestCorrelator.get_failed_request_logs, hex, hurl, hlogs]
    rfl
  · intro es u full_url hex hno
    have hurl : (RequestCorrelator.new.bufferAll es).url_to_request_id u
        = none := by
      rw [bufferAll_url_unchanged es u hno]; rfl
    simp only [RequestCorrelator.get_failed_request_logs, hex, hurl]

/-- C1 witness: a concrete terminal record makes the bucket discoverable
    through the full URL, and a non-terminal-only trace yields a miss. -/
theorem c1_url_discoverability_witness :
    (∃ logs,
      (RequestCorrelator.new.bufferAll ([] ++ ("raw1", termEntry) :: [])).request_logs
          "abc123" = some logs ∧
      (RequestCorrelator.new.bufferAll ([] ++ ("raw1", termEntry) :: [])).get_failed_request_logs
          "http://localhost:1323/api/v1/test?id=1" = some ("abc123", logs) ∧
      ("raw1", termEntry) ∈ logs) ∧
    (RequestCorrelator.new.bufferAll [("raw2", infoEntry)]).get_failed_request_logs
        "http://localhost:1323/api/v1/test?id=1" = none := by
  constructor
  · exact c1_url_discoverability.1 [] [] "raw1" termEntry "abc123"
      "/api/v1/test?id=1" "http://localhost:1323/api/v1/test?id=1"
      rfl (by decide) rfl (by simp) (by decide)
  · exact c1_url_discoverability.2 [("raw2", infoEntry)]
      "/api/v1/test?id=1" "http://localhost:1323/api/v1/test?id=1"
      (by decide) (by decide)

/-- C4: after buffering `N` entries that all carry identifier `i`,
    `get_last_request_logs k` returns exactly the last `min k N` entries
    of the arrival-ordered bucket (most recent last); if no buffered entry
    ever carried an identifier, it returns `none`. -/
theorem c4_get_last_request_logs :
    (∀ (es : List (String × ApiLogEntry)) (i : String) (k : Nat),
      (∀ p ∈ es, p.2.request_id = some i) → es ≠ [] →
      (RequestCorrelator.new.bufferAll es).get_last_request_logs k
          = some (i, es.drop (es.length - k)) ∧
      (es.drop (es.length - k)).length = min k es.length) ∧
    (∀ (es : List (String × ApiLogEntry)) (k : Nat),
      (∀ p ∈ es, p.2.request_id = none) →
      (RequestCorrelator.new.bufferAll es).get_last_request_logs k = none) := by
  constructor
  · intro es i k h hne
    obtain ⟨p, t, rfl⟩ := List.exists_cons_of_ne_nil hne
    obtain ⟨r, e⟩ := p
    rw [bufferAll_cons]
    have hp : e.request_id = some i := h (r, e) (List.mem_cons_self _ t)
    have hf := buffer_some_fields RequestCorrelator.new r e i hp
    have h0 : (RequestCorrelator.new.buffer_api_log r e).request_logs i
        = some [(r, e)] := by
      rw [hf.1]; simp [RequestCorrelator.new]
    have hu := bufferAll_uniform_id i t
      (fun q hq => h q (List.mem_cons_of_mem _ hq))
      (RequestCorrelator.new.buffer_api_log r e) [(r, e)] h0 hf.2
    constructor
    · simp only [RequestCorrelator.get_last_request_logs, hu.2, hu.1]
      rfl
    · rw [List.length_drop]
      omega
  · intro es k h
    rw [bufferAll_all_none es h]
    rfl

/-- C4 witness: two entries under one identifier, queried with `k = 1`,
    and a trace of identifier-less entries, queried with `k = 3`. -/
theorem c4_get_last_request_logs_witness :
    ((RequestCorrelator.new.bufferAll
        [("raw1", infoEntry), ("raw2", termEntry)]).get_last_request_logs 1
      = some ("abc123",
          [("raw1", infoEntry), ("raw2", termEntry)].drop
            ([("raw1", infoEntry), ("raw2", termEntry)].length - 1)) ∧
      ([("raw1", infoEntry), ("raw2", termEntry)].drop
          ([("raw1", infoEntry), ("raw2", termEntry)].length - 1)).length
        = min 1 [("raw1", infoEntry), ("raw2", termEntry)].length) ∧
    (RequestCorrelator.new.bufferAll
        [("raw3", termEntryNoId)]).get_last_request_logs 3 = none := by
  constructor
  · exact c4_get_last_request_logs.1
      [("raw1", infoEntry), ("raw2", termEntry)] "abc123" 1
      (by decide) (by decide)
  · exact c4_get_last_request_logs.2 [("raw3", termEntryNoId)] 3 (by decide)

/-- C8: in every state reachable by buffering (no clear), whenever
    `last_request_id = some id` the bucket for `id` exists and is
    nonempty; consequently, as soon as some buffered record carried an
    identifier, `get_last_request_logs n` with `n ≥ 1` returns a
    nonempty result. -/
theorem c8_last_id_bucket_nonempty (es : List (String × ApiLogEntry)) :
    (∀ id, (RequestCorrelator.new.bufferAll es).last_request_id = some id →
      ∃ l, (RequestCorrelator.new.bufferAll es).request_logs id = some l ∧
        l ≠ []) ∧
    ((∃ p ∈ es, p.2.request_id.isSome = true) →
      ∀ n, 1 ≤ n →
        ∃ id l,
          (RequestCorrelator.new.bufferAll es).get_last_request_logs n
            = some (id, l) ∧ l ≠ []) := by
  have hinv : CorrInv (RequestCorrelator.new.bufferAll es) :=
    corrInv_bufferAll es RequestCorrelator.new corrInv_new
  refine ⟨hinv, ?_⟩
  intro hex n hn
  have hsome := bufferAll_mem_id_last_isSome es RequestCorrelator.new hex
  obtain ⟨id, hid⟩ := Option.isSome_iff_exists.mp hsome
  obtain ⟨l, hl, hlne⟩ := hinv id hid
  refine ⟨id, l.drop (l.length - n), ?_, ?_⟩
  · simp only [RequestCorrelator.get_last_request_logs, hid, hl]
  · have hpos : 0 < l.length := List.length_pos.mpr hlne
    have : (l.drop (l.length - n)).length = l.length - (l.length - n) :=
      List.length_drop _ _
    intro hc
    rw [hc] at this
    simp only [List.length_nil] at this
    omega

/-- C8 witness: one identifier-bearing record, queried with `n = 1`. -/
theorem c8_last_id_bucket_nonempty_witness :
    (∃ l, (RequestCorrelator.new.bufferAll [("raw1", infoEntry)]).request_logs
        "abc123" = some l ∧ l ≠ []) ∧
    (∃ id l,
      (RequestCorrelator.new.bufferAll [("raw1", infoEntry)]).get_last_request_logs 1
        = some (id, l) ∧ l ≠ []) := by
  refine ⟨(c8_last_id_bucket_nonempty [("raw1", infoEntry)]).1 "abc123" (by decide),
    (c8_last_id_bucket_nonempty [("raw1", infoEntry)]).2 ?_ 1 (by decide)⟩
  exact ⟨("raw1", infoEntry), by simp, by decide⟩

/-- C9: buffering an entry whose `request_id` is `none` leaves the whole
    correlator state unchanged — no bucket is touched, `last_request_id`
    keeps its value, and no URL mapping is registered even for a
    terminal-shaped record with a URI and status. -/
theorem c9_no_id_no_effect (c : RequestCorrelator) (raw : String)
    (e : ApiLogEntry) (h : e.request_id = none) :
    c.buffer_api_log raw e = c ∧
    (c.buffer_api_log raw e).request_logs = c.request_logs ∧
    (c.buffer_api_log raw e).url_to_request_id = c.url_to_request_id ∧
    (c.buffer_api_log raw e).seen_urls = c.seen_urls ∧
    (c.buffer_api_log raw e).last_request_id = c.last_request_id := by
  have hfr := buffer_none_frame c raw e h
  exact ⟨hfr, by rw [hfr], by rw [hfr], by rw [hfr], by rw [hfr]⟩

/-- C9 witness: a terminal-shaped record (msg `REQUEST`, uri and status
    present) without an identifier has no effect on a fresh correlator. -/
theorem c9_no_id_no_effect_witness :
    termEntryNoId.is_request_summary = true ∧
    (RequestCorrelator.new.buffer_api_log "raw3" termEntryNoId
        = RequestCorrelator.new ∧
      (RequestCorrelator.new.buffer_api_log "raw3" termEntryNoId).request_logs
        = RequestCorrelator.new.request_logs ∧
      (RequestCorrelator.new.buffer_api_log "raw3" termEntryNoId).url_to_request_id
        = RequestCorrelator.new.url_to_request_id ∧
      (RequestCorrelator.new.buffer_api_log "raw3" termEntryNoId).seen_urls
        = RequestCorrelator.new.seen_urls ∧
      (RequestCorrelator.new.buffer_api_log "raw3" termEntryNoId).last_request_id
        = RequestCorrelator.new.last_request_id) :=
  ⟨by decide, c9_no_id_no_effect RequestCorrelator.new "raw3" termEntryNoId rfl⟩

/-! ## Analysis lemmas: the f64 order bridge and the stable sort -/

theorem pcmp_eq_compare (a b : F64) (ha : a ≠ F64.nan) (hb : b ≠ F64.nan) :
    F64.pcmp a b = some (compare a.toE b.toE) := by
  cases a with
  | nan => exact absurd rfl ha
  | negInf =>
    cases b with
    | nan => exact absurd rfl hb
    | negInf => simp only [F64.pcmp, F64.toE]; rw [compare_eq_iff_eq.mpr rfl]
    | finite q =>
      simp only [F64.pcmp, F64.toE]
      rw [compare_lt_iff_lt.mpr (WithBot.bot_lt_coe _)]
    | inf =>
      simp only [F64.pcmp, F64.toE]
      rw [compare_lt_iff_lt.mpr (WithBot.bot_lt_coe _)]
  | finite q =>
    cases b with
    | nan => exact absurd rfl hb
    | negInf =>
      simp only [F64.pcmp, F64.toE]
      rw [compare_gt_iff_gt.mpr (WithBot.bot_lt_coe _)]
    | finite r =>
      simp only [F64.pcmp, F64.toE]
      rcases lt_trichotomy q r with h | h | h
      · rw [compare_lt_iff_lt.mpr h, compare_lt_iff_lt.mpr
          (WithBot.coe_lt_coe.mpr (WithTop.coe_lt_coe.mpr h))]
      · subst h; rw [compare_eq_iff_eq.mpr rfl, compare_eq_iff_eq.mpr rfl]
      · rw [compare_gt_iff_gt.mpr h, compare_gt_iff_gt.mpr
          (WithBot.coe_lt_coe.mpr (WithTop.coe_lt_coe.mpr h))]
    | inf =>
      simp only [F64.pcmp, F64.toE]
      rw [compare_lt_iff_lt.mpr (WithBot.coe_lt_coe.mpr (WithTop.coe_lt_top q))]
  | inf =>
    cases b with
    | nan => exact absurd rfl hb
    | negInf =>
      simp only [F64.pcmp, F64.toE]
      rw [compare_gt_iff_gt.mpr (WithBot.bot_lt_coe _)]
    | finite r =>
      simp only [F64.pcmp, F64.toE]
      rw [compare_gt_iff_gt.mpr (WithBot.coe_lt_coe.mpr (WithTop.coe_lt_top r))]
    | inf => simp only [F64.pcmp, F64.toE]; rw [compare_eq_iff_eq.mpr rfl]

theorem cmpSlow_gt_iff (x y : SqlQuery) (hx : x.elapsed_ms ≠ F64.nan)
    (hy : y.elapsed_ms ≠ F64.nan) :
    cmpSlow x y = some Ordering.gt ↔ keyOf x < keyOf y := by
  unfold cmpSlow keyOf
  rw [pcmp_eq_compare _ _ hy hx]
  simp only [Option.some.injEq]
  exact compare_gt_iff_gt

theorem mem_insertKey {a x : SqlQuery} {l : List SqlQuery} :
    a ∈ insertKey x l ↔ a = x ∨ a ∈ l := by
  induction l with
  | nil => simp [insertKey]
  | cons y ys ih =>
    by_cases h : keyOf x < keyOf y <;>
      simp [insertKey, h, ih, List.mem_cons] <;> tauto

theorem mem_sortKey {a : SqlQuery} {l : List SqlQuery} :
    a ∈ sortKey l ↔ a ∈ l := by
  induction l with
  | nil => simp [sortKey]
  | cons x xs ih => simp [sortKey, mem_insertKey, ih, List.mem_cons]

theorem mem_insertSlow {a x : SqlQuery} {l : List SqlQuery}
    (h : a ∈ insertSlow x l) : a = x ∨ a ∈ l := by
  induction l with
  | nil => simpa [insertSlow] using h
  | cons y ys ih =>
    by_cases hc : cmpSlow x y = some Ordering.gt
    · rw [insertSlow, if_pos hc] at h
      rcases List.mem_cons.mp h with rfl | h2
      · exact Or.inr (List.mem_cons_self _ _)
      · rcases ih h2 with h3 | h3
        · exact Or.inl h3
        · exact Or.inr (List.mem_cons_of_mem _ h3)
    · rw [insertSlow, if_neg hc] at h
      simpa [List.mem_cons] using h

theorem mem_sortSlow {a : SqlQuery} {l : List SqlQuery}
    (h : a ∈ sortSlow l) : a ∈ l := by
  induction l with
  | nil => simpa [sortSlow] using h
  | cons x xs ih =>
    rw [sortSlow] at h
    rcases mem_insertSlow h with rfl | h2
    · exact List.mem_cons_self _ _
    · exact List.mem_cons_of_mem _ (ih h2)

theorem insertSlow_eq_insertKey (x : SqlQuery) (l : List SqlQuery)
    (hx : x.elapsed_ms ≠ F64.nan) (hl : NoNanL l) :
    insertSlow x l = insertKey x l := by
  induction l with
  | nil => rfl
  | cons y ys ih =>
    have hy := hl y (List.mem_cons_self y ys)
    have hgt := cmpSlow_gt_iff x y hx hy
    by_cases h : keyOf x < keyOf y
    · rw [insertSlow, if_pos (hgt.mpr h), insertKey, if_pos h,
        ih (fun q hq => hl q (List.mem_cons_of_mem y hq))]
    · rw [insertSlow, if_neg (fun hc => h (hgt.mp hc)), insertKey, if_neg h]

theorem sortSlow_eq_sortKey (l : List SqlQuery) (hl : NoNanL l) :
    sortSlow l = sortKey l := by
  induction l with
  | nil => rfl
  | cons x xs ih =>
    have hx := hl x (List.mem_cons_self x xs)
    have hxs : NoNanL xs := fun q hq => hl q (List.mem_cons_of_mem x hq)
    rw [sortSlow, sortKey, ih hxs,
      insertSlow_eq_insertKey x (sortKey xs) hx
        (fun q hq => hxs q (mem_sortKey.mp hq))]

theorem length_insertKey (x : SqlQuery) (l : List SqlQuery) :
    (insertKey x l).length = l.length + 1 := by
  induction l with
  | nil => rfl
  | cons y ys ih =>
    by_cases h : keyOf x < keyOf y <;> simp [insertKey, h, ih]

theorem length_sortKey (l : List SqlQuery) :
    (sortKey l).length = l.length := by
  induction l with
  | nil => rfl
  | cons x xs ih => simp [sortKey, length_insertKey, ih]

theorem descSorted_insertKey (x : SqlQuery) (l : List SqlQuery)
    (h : DescSorted l) : DescSorted (insertKey x l) := by
  induction l with
  | nil => simp [insertKey, DescSorted]
  | cons y ys ih =>
    rcases List.pairwise_cons.mp h with ⟨hy, hys⟩
    by_cases hc : keyOf x < keyOf y
    · rw [insertKey, if_pos hc]
      refine List.pairwise_cons.mpr ⟨?_, ih hys⟩
      intro z hz
      rcases mem_insertKey.mp hz with rfl | hz2
      · exact le_of_lt hc
      · exact hy z hz2
    · rw [insertKey, if_neg hc]
      refine List.pairwise_cons.mpr ⟨?_, h⟩
      intro z hz
      rcases List.mem_cons.mp hz with rfl | hz2
      · exact le_of_not_lt hc
      · exact le_trans (hy z hz2) (le_of_not_lt hc)

theorem descSorted_sortKey (l : List SqlQuery) : DescSorted (sortKey l) := by
  induction l with
  | nil => simp [sortKey, DescSorted]
  | cons x xs ih => exact descSorted_insertKey x (sortKey xs) ih

theorem insertKey_of_head_le (x : SqlQuery) (l : List SqlQuery)
    (h : ∀ z ∈ l, keyOf z ≤ keyOf x) : insertKey x l = x :: l := by
  cases l with
  | nil => rfl
  | cons y ys =>
    rw [insertKey, if_neg (not_lt.mpr (h y (List.mem_cons_self y ys)))]

theorem sortKey_of_sorted (l : List SqlQuery) (h : DescSorted l) :
    sortKey l = l := by
  induction l with
  | nil => rfl
  | cons x xs ih =>
    rcases List.pairwise_cons.mp h with ⟨hx, hxs⟩
    rw [sortKey, ih hxs, insertKey_of_head_le x xs hx]

theorem insertKey_insLate (x q : SqlQuery) (s : List SqlQuery) :
    insertKey x (insLate q s) = insLate q (insertKey x s) := by
  induction s with
  | nil =>
    by_cases h : keyOf x < keyOf q <;> simp [insertKey, insLate, h]
  | cons y ys ih =>
    by_cases h1 : keyOf y < keyOf q <;> by_cases h2 : keyOf x < keyOf y
    · have h3 : keyOf x < keyOf q := lt_trans h2 h1
      simp [insertKey, insLate, h1, h2, h3]
    · by_cases h3 : keyOf x < keyOf q <;>
        simp [insertKey, insLate, h1, h2, h3]
    · simp [insertKey, insLate, h1, h2, ih]
    · have h4 : ¬ keyOf x < keyOf q :=
        not_lt.mpr (le_trans (not_lt.mp h1) (not_lt.mp h2))
      simp [insertKey, insLate, h1, h2, h4]

theorem sortKey_append_single (l : List SqlQuery) (q : SqlQuery) :
    sortKey (l ++ [q]) = insLate q (sortKey l) := by
  induction l with
  | nil => rfl
  | cons x t ih =>
    show insertKey x (sortKey (t ++ [q])) = insLate q (insertKey x (sortKey t))
    rw [ih, insertKey_insLate]

theorem take_cons_take (y : SqlQuery) (ys : List SqlQuery) (m : Nat) :
    (y :: ys.take m).take m = (y :: ys).take m := by
  cases m with
  | zero => rfl
  | succ n =>
    simp only [List.take_succ_cons, List.take_take]
    rw [min_eq_left (Nat.le_succ n)]

theorem take_insLate (q : SqlQuery) (s : List SqlQuery) (k : Nat) :
    (insLate q (s.take k)).take k = (insLate q s).take k := by
  induction s generalizing k with
  | nil => simp
  | cons y ys ih =>
    cases k with
    | zero => simp
    | succ m =>
      by_cases h : keyOf y < keyOf q
      · simp only [List.take_succ_cons, insLate, if_pos h]
        rw [take_cons_take]
      · simp only [List.take_succ_cons, insLate, if_neg h]
        rw [ih m]

theorem noNan_of_no_panic (l : List SqlQuery) (h2 : 2 ≤ l.length)
    (h : sortPanics l = false) : NoNanL l := by
  intro q hq hn
  have ht : l.any (fun q => q.elapsed_ms = F64.nan) = true :=
    List.any_eq_true.mpr ⟨q, hq, by simp [hn]⟩
  rw [sortPanics, ht, Bool.and_true, decide_eq_false_iff_not] at h
  exact h h2

theorem no_panic_of_noNan (l : List SqlQuery) (h : NoNanL l) :
    sortPanics l = false := by
  have ht : l.any (fun q => q.elapsed_ms = F64.nan) = false := by
    rw [List.any_eq_false]
    intro q hq
    simpa using h q hq
  rw [sortPanics, ht, Bool.and_false]

theorem snapshots_cons (e : ApiLogEntry) (t : List ApiLogEntry) :
    snapshots (e :: t) = snapshots [e] ++ snapshots t := by
  cases h : e.sql <;> simp [snapshots, h]

theorem descSorted_take (l : List SqlQuery) (k : Nat) (h : DescSorted l) :
    DescSorted (l.take k) :=
  List.Pairwise.sublist (List.take_sublist k l) h

theorem track_query_step (s : SqlStats) (seen : List SqlQuery)
    (e : ApiLogEntry) (s2 : SqlStats)
    (h1 : s.slowest_queries = (sortKey seen).take 5)
    (h2 : NoNanL seen ∨ seen.length ≤ 1)
    (h : s.track_query e = some s2) :
    s2.slowest_queries = (sortKey (seen ++ snapshots [e])).take 5 ∧
    (NoNanL (seen ++ snapshots [e]) ∨ (seen ++ snapshots [e]).length ≤ 1) := by
  cases hsql : e.sql with
  | none =>
    have hsnap : snapshots [e] = [] := by simp [snapshots, hsql]
    simp only [SqlStats.track_query, hsql, Option.some.injEq] at h
    subst h
    rw [hsnap, List.append_nil]
    exact ⟨h1, h2⟩
  | some sql =>
    have hsnap : snapshots [e]
        = [⟨sql, parse_elapsed e.elapsed, e.rows_affected.getD 0, e.uri⟩] := by
      simp [snapshots, hsql]
    set q : SqlQuery :=
      ⟨sql, parse_elapsed e.elapsed, e.rows_affected.getD 0, e.uri⟩ with hq
    simp only [SqlStats.track_query, hsql] at h
    cases hb : sortPanics (s.slowest_queries ++ [q]) with
    | true => rw [hb] at h; simp at h
    | false =>
      rw [hb] at h
      simp only [Bool.false_eq_true, if_false, Option.some.injEq] at h
      have hslow : s2.slowest_queries
          = (sortSlow (s.slowest_queries ++ [q])).take 5 := by
        rw [← h]
      have htrans : sortSlow (s.slowest_queries ++ [q])
          = sortKey (s.slowest_queries ++ [q]) := by
        rcases Nat.lt_or_ge (s.slowest_queries ++ [q]).length 2 with hlen | hlen
        · have hnil : s.slowest_queries = [] := by
            rw [List.length_append, List.length_singleton] at hlen
            exact List.eq_nil_of_length_eq_zero (by omega)
          rw [hnil]
          rfl
        · exact sortSlow_eq_sortKey _ (noNan_of_no_panic _ hlen hb)
      have hXsorted : DescSorted s.slowest_queries := by
        rw [h1]; exact descSorted_take _ 5 (descSorted_sortKey seen)
      have key : s2.slowest_queries = (sortKey (seen ++ [q])).take 5 := by
        rw [hslow, htrans, sortKey_append_single,
          sortKey_of_sorted _ hXsorted, h1, take_insLate,
          ← sortKey_append_single]
      refine ⟨by rw [hsnap]; exact key, ?_⟩
      by_cases hseen : seen = []
      · right
        rw [hsnap, hseen]
        simp
      · left
        have hlen1 : 0 < s.slowest_queries.length := by
          rw [h1, List.length_take, length_sortKey]
          have : 0 < seen.length := List.length_pos.mpr hseen
          omega
        have hlen2 : 2 ≤ (s.slowest_queries ++ [q]).length := by
          rw [List.length_append, List.length_singleton]
          omega
        have hnn : NoNanL (s.slowest_queries ++ [q]) :=
          noNan_of_no_panic _ hlen2 hb
        have hqn : q.elapsed_ms ≠ F64.nan :=
          hnn q (List.mem_append_right _ (List.mem_singleton_self q))
        have hseenN : NoNanL seen := by
          rcases h2 with h2 | h2
          · exact h2
          · have hone : seen.length = 1 := by
              have : 0 < seen.length := List.length_pos.mpr hseen
              omega
            obtain ⟨x, rfl⟩ := List.length_eq_one.mp hone
            have hx : s.slowest_queries = [x] := by
              rw [h1]; rfl
            intro z hz
            rcases List.mem_singleton.mp hz with rfl
            have hxmem : z ∈ s.slowest_queries ++ [q] := by
              rw [hx]; exact List.mem_cons_self z [q]
            exact hnn z hxmem
        rw [hsnap]
        intro z hz
        rcases List.mem_append.mp hz with hz2 | hz2
        · exact hseenN z hz2
        · rcases List.mem_singleton.mp hz2 with rfl
          exact hqn

theorem trackAll_inv (es : List ApiLogEntry) (s s2 : SqlStats)
    (seen : List SqlQuery)
    (h1 : s.slowest_queries = (sortKey seen).take 5)
    (h2 : NoNanL seen ∨ seen.length ≤ 1)
    (h : s.trackAll es = some s2) :
    s2.slowest_queries = (sortKey (seen ++ snapshots es)).take 5 := by
  induction es generalizing s seen with
  | nil =>
    simp only [SqlStats.trackAll, Option.some.injEq] at h
    subst h
    simpa [snapshots] using h1
  | cons e t ih =>
    rw [SqlStats.trackAll] at h
    cases hq : s.track_query e with
    | none => rw [hq] at h; simp at h
    | some s3 =>
      rw [hq] at h
      have hstep := track_query_step s seen e s3 h1 h2 hq
      have := ih s3 (seen ++ snapshots [e]) hstep.1 hstep.2 h
      rwa [List.append_assoc, ← snapshots_cons] at this

/-! ## Claim theorems: analysis (C2, C10) -/

/-- C2: for every completed sequence of `track_query` calls the
    slowest-query set equals the 5-element truncation of the stable
    descending sort (by elapsed time) of all snapshots in arrival order —
    hence it has length at most 5, is sorted descending, contains only
    snapshots of queries that were actually tracked, and on equal elapsed
    times the earlier-inserted snapshot is the one retained. -/
theorem c2_slowest_queries (es : List ApiLogEntry) (s : SqlStats)
    (h : SqlStats.new.trackAll es = some s) :
    s.slowest_queries = (sortKey (snapshots es)).take 5 ∧
    s.slowest_queries.length ≤ 5 ∧
    DescSorted s.slowest_queries ∧
    ∀ q ∈ s.slowest_queries, q ∈ snapshots es := by
  have hmain := trackAll_inv es SqlStats.new s [] rfl (Or.inr (by simp)) h
  rw [List.nil_append] at hmain
  refine ⟨hmain, ?_, ?_, ?_⟩
  · rw [hmain]; exact List.length_take_le _ _
  · rw [hmain]; exact descSorted_take _ 5 (descSorted_sortKey _)
  · intro q hq
    rw [hmain] at hq
    exact mem_sortKey.mp (List.mem_of_mem_take hq)

/-- C2 witness: three tracked queries (3ms, 1ms, 2ms) produce the stats
    whose slowest set is the sorted truncation of their snapshots. -/
theorem c2_slowest_queries_witness :
    SqlStats.new.trackAll [sqlEntryA, sqlEntryB, sqlEntryC]
      = some demoStats ∧
    (demoStats.slowest_queries
        = (sortKey (snapshots [sqlEntryA, sqlEntryB, sqlEntryC])).take 5 ∧
      demoStats.slowest_queries.length ≤ 5 ∧
      DescSorted demoStats.slowest_queries ∧
      ∀ q ∈ demoStats.slowest_queries,
        q ∈ snapshots [sqlEntryA, sqlEntryB, sqlEntryC]) :=
  ⟨by with_unfolding_all decide,
    c2_slowest_queries [sqlEntryA, sqlEntryB, sqlEntryC] demoStats
      (by with_unfolding_all decide)⟩

theorem trackAll_noNan_isSome (es : List ApiLogEntry) (s : SqlStats)
    (hs : NoNanL s.slowest_queries)
    (h : ∀ e ∈ es, parse_elapsed e.elapsed ≠ F64.nan) :
    (s.trackAll es).isSome = true := by
  induction es generalizing s with
  | nil => rfl
  | cons e t ih =>
    rw [SqlStats.trackAll]
    cases hsql : e.sql with
    | none =>
      simp only [SqlStats.track_query, hsql]
      exact ih s hs (fun x hx => h x (List.mem_cons_of_mem e hx))
    | some sql =>
      set q : SqlQuery :=
        ⟨sql, parse_elapsed e.elapsed, e.rows_affected.getD 0, e.uri⟩ with hqdef
      have hqn : q.elapsed_ms ≠ F64.nan := h e (List.mem_cons_self e t)
      have hnn : NoNanL (s.slowest_queries ++ [q]) := by
        intro z hz
        rcases List.mem_append.mp hz with hz2 | hz2
        · exact hs z hz2
        · rcases List.mem_singleton.mp hz2 with rfl
          exact hqn
      have hb := no_panic_of_noNan _ hnn
      simp only [SqlStats.track_query, hsql, hb, Bool.false_eq_true, if_false]
      apply ih
      · intro z hz
        have hz2 := List.mem_of_mem_take hz
        exact hnn z (mem_sortSlow hz2)
      · exact fun x hx => h x (List.mem_cons_of_mem e hx)

/-- C10 (amended): the elapsed-time comparison is defined for every pair
    of non-NaN snapshots, so `track_query` never panics as long as no
    tracked entry's elapsed string parses to NaN; the NaN case does
    panic (see the counterexample). -/
theorem c10_no_nan_no_panic (es : List ApiLogEntry)
    (h : ∀ e ∈ es, parse_elapsed e.elapsed ≠ F64.nan) :
    (SqlStats.new.trackAll es).isSome = true :=
  trackAll_noNan_isSome es SqlStats.new
    (fun q hq => absurd hq (by simp [SqlStats.new])) h

/-- C10 counterexample: an elapsed string `"NaN"` parses to NaN; the
    first tracked query alone completes (a one-element slice is never
    compared), but tracking a second query panics inside `sort_by`
    (modelled as `none`), refuting "track_query never panics". -/
theorem c10_counterexample :
    parse_elapsed sqlEntryNaN.elapsed = F64.nan ∧
    SqlStats.new.trackAll [sqlEntryNaN] ≠ none ∧
    SqlStats.new.trackAll [sqlEntryNaN, sqlEntryB] = none := by
  with_unfolding_all decide

/-- C10 witness: a NaN-free pair of tracked queries completes. -/
theorem c10_no_nan_no_panic_witness :
    (SqlStats.new.trackAll [sqlEntryA, sqlEntryB]).isSome = true :=
  c10_no_nan_no_panic [sqlEntryA, sqlEntryB] (by with_unfolding_all decide)

/-! ## Claim theorems: category cascade (C3) -/

/-- C3 (amended): for every decoded record the category is derived by
    the first-match-wins cascade (SQL error / SQL query / body dump /
    request summary / generic error / general), where "severity is
    error-level" means the level string is exactly `"ERROR"`
    (case-sensitive); a lowercase `"error"` with no SQL and no error
    field therefore falls through to the general category. -/
theorem c3_log_type_cascade (e : ApiLogEntry) :
    e.log_type = logCategorySpec e := by
  unfold ApiLogEntry.log_type logCategorySpec
  cases hA : (strContains e.msg "SQL" || e.sql.isSome) <;>
    cases hB : (decide (e.level = "ERROR") || e.err.isSome) <;>
      simp [hA, hB]

/-- C3 counterexample: a record with level `"error"` (lowercase — an
    error level for `LogLevel::from_str`), no SQL and no error field is
    classified `ApiGeneral`, not the generic-error category the claim
    requires for error-level severities of any letter case. -/
theorem c3_counterexample :
    errLowerEntry.log_type = LogType.ApiGeneral ∧
    errLowerEntry.log_type ≠ LogType.ApiError ∧
    LogLevel.from_str errLowerEntry.level = LogLevel.Error ∧
    errLowerEntry.sql = none ∧ errLowerEntry.err = none := by decide

/-! ## Claim theorems: health check (C6) -/

theorem waitForApiFrom_allFail (probe : Nat → Bool)
    (h : ∀ i, probe i = false) :
    ∀ (rem i : Nat), waitForApiFrom probe i rem = (false, rem) := by
  intro rem
  induction rem with
  | zero => intro i; rfl
  | succ n ih => intro i; simp [waitForApiFrom, h i, ih (i + 1)]

/-- C6: if the readiness probe fails on every attempt, the run performs
    exactly `timeout` probe attempts (never fewer, never more), kills
    the service process, never spawns the test runner, and returns exit
    code 1. -/
theorem c6_health_check_always_fails (timeout : Nat) (probe : Nat → Bool)
    (karateExit : Int) (h : ∀ i, probe i = false) :
    runModel timeout probe karateExit =
      { probeAttempts := timeout, apiKilled := true,
        karateSpawned := false, exitCode := 1 } := by
  unfold runModel wait_for_api
  rw [waitForApiFrom_allFail probe h timeout 1]
  rfl

/-- C6 witness: three configured attempts with an always-failing probe. -/
theorem c6_health_check_always_fails_witness :
    runModel 3 (fun _ => false) 0 =
      { probeAttempts := 3, apiKilled := true,
        karateSpawned := false, exitCode := 1 } :=
  c6_health_check_always_fails 3 (fun _ => false) 0 (fun _ => rfl)

/-! ## Claim theorems: failure-URL extraction (C7) -/

theorem mem_takeWhile_cls {p : Char → Bool} :
    ∀ {l : List Char} {a : Char}, a ∈ l.takeWhile p → p a = true := by
  intro l
  induction l with
  | nil => intro a h; simp [List.takeWhile] at h
  | cons c t ih =>
    intro a h
    rw [List.takeWhile_cons] at h
    by_cases hc : p c = true
    · rw [if_pos hc] at h
      rcases List.mem_cons.mp h with rfl | h2
      · exact hc
      · exact ih h2
    · rw [if_neg hc] at h
      exact absurd h (List.not_mem_nil a)

theorem schemeS_fst (r3 : List Char) :
    (schemeS r3).1 = [] ∨ (schemeS r3).1 = ['s'] := by
  cases r3 with
  | nil => exact Or.inl rfl
  | cons c r4 =>
    by_cases h : c = 's' <;> simp [schemeS, h]

theorem urlCaptureAt_shape (cls : Char → Bool) (l cap : List Char)
    (h : urlCaptureAt cls l = some cap) :
    ∃ s body, (s = [] ∨ s = ['s']) ∧
      cap = "http".toList ++ s ++ "://".toList ++ body ∧
      body ≠ [] ∧ ∀ c ∈ body, cls c = true := by
  unfold urlCaptureAt at h
  cases h1 : dropPrefixQ ("url:".toList) l with
  | none => rw [h1] at h; simp at h
  | some r1 =>
    simp only [h1, Option.bind] at h
    cases h2 : dropPrefixQ ("http".toList) (r1.dropWhile isWs) with
    | none => rw [h2] at h; simp at h
    | some r3 =>
      simp only [h2, Option.bind] at h
      cases h3 : dropPrefixQ ("://".toList) (schemeS r3).2 with
      | none => rw [h3] at h; simp at h
      | some r5 =>
        simp only [h3, Option.bind] at h
        by_cases hbody : (r5.takeWhile cls).isEmpty = true
        · rw [if_pos hbody] at h; simp at h
        · rw [if_neg hbody] at h
          simp only [Option.some.injEq] at h
          refine ⟨(schemeS r3).1, r5.takeWhile cls, schemeS_fst r3,
            h.symm, ?_, fun x hx => mem_takeWhile_cls hx⟩
          intro hc
          rw [hc] at hbody
          exact hbody rfl

theorem scanCapture_shape (cls : Char → Bool) :
    ∀ (l cap : List Char), scanCapture cls l = some cap →
      ∃ s body, (s = [] ∨ s = ['s']) ∧
        cap = "http".toList ++ s ++ "://".toList ++ body ∧
        body ≠ [] ∧ ∀ c ∈ body, cls c = true := by
  intro l
  induction l with
  | nil => intro cap h; simp [scanCapture] at h
  | cons c t ih =>
    intro cap h
    rw [scanCapture] at h
    cases hu : urlCaptureAt cls (c :: t) with
    | some cap2 =>
      rw [hu] at h
      simp only [Option.some.injEq] at h
      exact h ▸ urlCaptureAt_shape cls (c :: t) cap2 hu
    | none =>
      rw [hu] at h
      exact ih cap h

/-- C7 (amended): the failure URL is the first capture of the pattern
    `url:\s*(https?://[^\s,]+)` (the spec's `\S+` admits the trailing
    comma; the code's class excludes it): on the claim's input line the
    result is exactly the URL without the trailing comma, a line with no
    such token yields nothing, and every extracted URL starts with
    `http://` or `https://` and contains neither whitespace nor commas. -/
theorem c7_extract_failure_url :
    extract_failure_url karateFailureLine = some "http://host/api/v1/x?id=1" ∧
    extract_failure_url "status code was: 200, expected: 400" = none ∧
    ∀ (line u : String), extract_failure_url line = some u →
      (∃ s body, (s = [] ∨ s = ['s']) ∧
        u.toList = "http".toList ++ s ++ "://".toList ++ body) ∧
      ∀ c ∈ u.toList, isWs c = false ∧ c ≠ ',' := by
  refine ⟨by decide, by decide, ?_⟩
  intro line u h
  unfold extract_failure_url at h
  cases hs : scanCapture (fun c => !isWs c && !(c = ',')) line.toList with
  | none => rw [hs] at h; simp at h
  | some cap =>
    rw [hs] at h
    simp only [Option.map, Option.some.injEq] at h
    obtain ⟨s, body, hsOr, hcap, _, hcls⟩ :=
      scanCapture_shape _ line.toList cap hs
    have hu : u.toList = cap := by rw [← h]; rfl
    constructor
    · exact ⟨s, body, hsOr, by rw [hu, hcap]⟩
    · intro c hc
      rw [hu, hcap] at hc
      have hgood : isWs c = false ∧ c ≠ ',' := by
        rcases List.mem_append.mp hc with hc1 | hcb
        · rcases List.mem_append.mp hc1 with hc2 | hc3
          · rcases List.mem_append.mp hc2 with hc4 | hc5
            · fin_cases hc4 <;> exact ⟨rfl, by decide⟩
            · rcases hsOr with rfl | rfl
              · exact absurd hc5 (List.not_mem_nil c)
              · rcases List.mem_singleton.mp hc5 with rfl
                exact ⟨rfl, by decide⟩
          · fin_cases hc3 <;> exact ⟨rfl, by decide⟩
        · have hb := hcls c hcb
          constructor
          · cases hw : isWs c
            · rfl
            · rw [hw] at hb; simp at hb
          · intro hceq
            rw [hceq] at hb
            simp at hb
      exact hgood

/-- C7 witness: the universal part of the amended claim evaluated at the
    claim's concrete line and its extracted URL. -/
theorem c7_extract_failure_url_witness :
    (∃ s body, (s = [] ∨ s = ['s']) ∧
      ("http://host/api/v1/x?id=1").toList
        = "http".toList ++ s ++ "://".toList ++ body) ∧
    ∀ c ∈ ("http://host/api/v1/x?id=1").toList, isWs c = false ∧ c ≠ ',' :=
  c7_extract_failure_url.2.2 karateFailureLine "http://host/api/v1/x?id=1"
    (by decide)

/-- C7 counterexample: on the claim's input line, the capture of the
    spec's pattern `url:\s*(https?://\S+)` keeps the trailing comma,
    while the code's extraction drops it — so the claim's two halves
    (extraction is the `\S+` capture, and the result has no trailing
    comma) cannot both hold. -/
theorem c7_counterexample :
    extract_failure_url_specPattern karateFailureLine
      = some "http://host/api/v1/x?id=1," ∧
    extract_failure_url karateFailureLine
      = some "http://host/api/v1/x?id=1" ∧
    extract_failure_url_specPattern karateFailureLine
      ≠ extract_failure_url karateFailureLine := by decide

/-! ## Claim theorems: batch grouping (C5) -/

theorem foldl_batch_lines (parse : String → Option ApiLogEntry)
    (bs : List String) (h : ∀ b ∈ bs, isBatchLine b = true)
    (buf : List (String × Option ApiLogEntry)) (groups : List BatchGroup)
    (processed : List String) :
    List.foldl (runBatchStep parse) (buf, groups, processed) bs
      = (buf ++ bs.map (ingestBatch parse), groups, processed) := by
  induction bs generalizing buf with
  | nil => simp
  | cons b t ih =>
    rw [List.foldl_cons]
    have hb := h b (List.mem_cons_self b t)
    have hstep : runBatchStep parse (buf, groups, processed) b
        = (buf ++ [ingestBatch parse b], groups, processed) := by
      simp [runBatchStep, hb]
    rw [hstep, ih (fun x hx => h x (List.mem_cons_of_mem b hx))]
    simp

/-- C5: a run of one or more batch-marked lines followed by one
    non-batch line emits exactly one group holding the per-line ingested
    contents in arrival order, labelled by the first request identifier
    among the parsed records (or the fixed placeholder when none); the
    flushing line is not consumed by the aggregator and goes through the
    normal pipeline; and batch lines remaining at stream end are flushed
    as one group.  The result holds for every JSON parse function. -/
theorem c5_batch_grouping :
    (∀ (parse : String → Option ApiLogEntry) (bs : List String) (t : String),
      bs ≠ [] → (∀ b ∈ bs, isBatchLine b = true) → isBatchLine t = false →
      runBatchPipeline parse (bs ++ [t])
        = ([⟨groupLabel (bs.map (ingestBatch parse)),
             bs.map (ingestBatch parse)⟩], [t])) ∧
    (∀ (parse : String → Option ApiLogEntry) (bs : List String),
      bs ≠ [] → (∀ b ∈ bs, isBatchLine b = true) →
      runBatchPipeline parse bs
        = ([⟨groupLabel (bs.map (ingestBatch parse)),
             bs.map (ingestBatch parse)⟩], [])) := by
  constructor
  · intro parse bs t hne hb ht
    have hmap : bs.map (ingestBatch parse) ≠ [] := by
      intro hc
      exact hne (List.map_eq_nil.mp hc)
    unfold runBatchPipeline
    rw [List.foldl_append, foldl_batch_lines parse bs hb [] [] [],
      List.nil_append]
    obtain ⟨m, ms, hM⟩ := List.exists_cons_of_ne_nil hmap
    have hstep : List.foldl (runBatchStep parse)
        (bs.map (ingestBatch parse), [], []) [t]
        = ([], [⟨groupLabel (bs.map (ingestBatch parse)),
                 bs.map (ingestBatch parse)⟩], [t]) := by
      rw [List.foldl_cons, List.foldl_nil]
      simp [runBatchStep, ht, hM]
    rw [hstep]
  · intro parse bs hne hb
    have hmap : bs.map (ingestBatch parse) ≠ [] := by
      intro hc
      exact hne (List.map_eq_nil.mp hc)
    unfold runBatchPipeline
    rw [foldl_batch_lines parse bs hb [] [] [], List.nil_append]
    obtain ⟨m, ms, hM⟩ := List.exists_cons_of_ne_nil hmap
    rw [hM]
    rfl

/-- C5 witness: two batch lines (one with a parsed record carrying an
    identifier) flushed by a non-batch line, and a lone batch line
    flushed at stream end. -/
theorem c5_batch_grouping_witness :
    runBatchPipeline demoParse ([batchLine1, batchLine2] ++ [flushLine])
      = ([⟨groupLabel ([batchLine1, batchLine2].map (ingestBatch demoParse)),
           [batchLine1, batchLine2].map (ingestBatch demoParse)⟩],
         [flushLine]) ∧
    runBatchPipeline demoParse [batchLine2]
      = ([⟨groupLabel ([batchLine2].map (ingestBatch demoParse)),
           [batchLine2].map (ingestBatch demoParse)⟩], []) :=
  ⟨c5_batch_grouping.1 demoParse [batchLine1, batchLine2] flushLine
      (by decide) (by decide) (by decide),
    c5_batch_grouping.2 demoParse [batchLine2] (by decide) (by decide)⟩

end KarateMonitor
